import Mathlib

/-!
Shallow embedding of the HOS (Hours of Service) trip-log engine from
`backend/apps/core/views.py` (`run_hos_simulation` and its nested helpers
`add_log_entry` and `simulate_segment`).

Modelling choices:
* Python floats (distances, counters) are modelled as `ℚ`; all inputs the
  HTTP layer can actually pass (decimal/binary fractions) are exact in `ℚ`,
  and the engine only uses `+`, `-`, `min`, `/`, `*` and comparisons.
* Python `int(x)` truncation on the (nonnegative in all reachable calls)
  durations is modelled as `Int.floor`; for `x < 0` both truncation and
  floor are `≤ 0` and the ledger drops the entry either way, so the guarded
  behaviour coincides.
* The two recursive loops (`add_log_entry`'s day-boundary split and
  `simulate_segment`'s while-loop) are written with an explicit structural
  fuel parameter so that every definition is executable by kernel
  reduction; the exported entry points instantiate the fuel with a bound
  that is proved sufficient (`addGo_stable`, `segGo_stable`), so the
  exported functions agree with the unbounded loops of the source.
-/

/-- Duty-status timeline entry exactly as built by `add_log_entry`:
status is the source's string code ("ON", "OFF", "SB", "D"). -/
structure Entry where
  status : String
  startMinute : ℤ
  endMinute : ℤ
  duration : ℤ
  note : String
deriving DecidableEq

/-- One day log dict: `{"date": ..., "miles": ..., "entries": [...]}`. -/
structure DayLog where
  date : String
  miles : ℚ
  entries : List Entry
deriving DecidableEq

/-- The variables closed over by `add_log_entry`:
`generated_logs`, `current_day_log`, `day_minute`. -/
structure Ledger where
  logs : List DayLog
  cur : DayLog
  day_minute : ℤ
deriving DecidableEq

/-- Full simulation state: the ledger plus the four counters mutated by
`simulate_segment` (`on_duty_shift`, `drive_shift`, `drive_since_break`,
`fuel_tank`). -/
structure St where
  led : Ledger
  on_duty : ℚ
  ds : ℚ
  dsb : ℚ
  fuel : ℚ
deriving DecidableEq

/-- `MAX_DRIVE_SHIFT = 11 * 60` -/
def MAX_DRIVE_SHIFT : ℚ := 11 * 60
/-- `MAX_ON_DUTY_SHIFT = 14 * 60` -/
def MAX_ON_DUTY_SHIFT : ℚ := 14 * 60
/-- `REQ_BREAK_AFTER = 8 * 60` -/
def REQ_BREAK_AFTER : ℚ := 8 * 60
/-- `SLEEPER_SPLIT = 10 * 60` -/
def SLEEPER_SPLIT : ℚ := 10 * 60
/-- `FUEL_RANGE_MILES = 1000` -/
def FUEL_RANGE_MILES : ℚ := 1000
/-- `AVG_MPH = 60` -/
def AVG_MPH : ℚ := 60

/-- Fueled version of the recursive body of `add_log_entry` (integer
duration, i.e. after the source's `int(duration)` truncation).  The fuel
only bounds the recursion depth of the day-boundary split; `add_int`
instantiates it with a proved-sufficient value. -/
def addGo : ℕ → Ledger → String → ℤ → String → Ledger
  | 0, led, _, _, _ => led
  | fuel + 1, led, status, duration, note =>
    if duration ≤ 0 then led
    else if led.day_minute + duration > 1440 then
      let remainder := led.day_minute + duration - 1440
      let fit := 1440 - led.day_minute
      let closedDay : DayLog :=
        { led.cur with
          entries := led.cur.entries ++ [Entry.mk status led.day_minute 1440 fit note] }
      let newLogs := led.logs ++ [closedDay]
      addGo fuel
        { logs := newLogs
          cur := { date := "Day " ++ toString (newLogs.length + 1), miles := 0, entries := [] }
          day_minute := 0 }
        status remainder note
    else
      { led with
        cur := { led.cur with
                 entries := led.cur.entries ++
                   [Entry.mk status led.day_minute (led.day_minute + duration) duration note] }
        day_minute := led.day_minute + duration }

/-- `add_log_entry` after the `int()` truncation: each recursive step of the
split strictly decreases `duration + day_minute`, so this fuel suffices. -/
def add_int (led : Ledger) (status : String) (duration : ℤ) (note : String) : Ledger :=
  addGo ((duration + led.day_minute).toNat + 1) led status duration note

/-- `add_log_entry(status, duration, note)`: truncate the requested
duration with `int()` (= floor on the nonnegative durations that occur),
then run the split loop. -/
def add_log_entry (led : Ledger) (status : String) (duration : ℚ) (note : String) : Ledger :=
  add_int led status ⌊duration⌋ note

/-- Refuel branch of the while loop: `add_log_entry("ON", 30, "Refuel");
on_duty_shift += 30; fuel_tank = 0`. -/
def refuelStep (st : St) : St :=
  { st with led := add_log_entry st.led "ON" 30 "Refuel",
            on_duty := st.on_duty + 30, fuel := 0 }

/-- Break branch: `add_log_entry("OFF", 30, "Mandated 30m Break");
on_duty_shift += 30; drive_since_break = 0`. -/
def breakStep (st : St) : St :=
  { st with led := add_log_entry st.led "OFF" 30 "Mandated 30m Break",
            on_duty := st.on_duty + 30, dsb := 0 }

/-- Sleeper-berth reset branch: `add_log_entry("SB", SLEEPER_SPLIT, ...)`;
zero `on_duty_shift`, `drive_shift`, `drive_since_break`. -/
def resetStep (st : St) : St :=
  { st with led := add_log_entry st.led "SB" SLEEPER_SPLIT "10h Reset (Sleeper Berth)",
            on_duty := 0, ds := 0, dsb := 0 }

/-- Driving-chunk body: record the chunk, then bump all four counters and
the day's miles (the miles land on whatever day is current after the entry
was recorded, exactly as in the source). -/
def driveChunk (st : St) (step_dist : ℚ) : St :=
  let step_time := step_dist / AVG_MPH * 60
  let led1 := add_log_entry st.led "D" step_time "Driving"
  { led := { led1 with cur := { led1.cur with miles := led1.cur.miles + step_dist } }
    on_duty := st.on_duty + step_time
    ds := st.ds + step_time
    dsb := st.dsb + step_time
    fuel := st.fuel + step_dist }

/-- Fueled version of `simulate_segment`'s `while dist_remaining > 0` loop;
one unit of fuel per loop iteration. -/
def segGo : ℕ → St → ℚ → St
  | 0, st, _ => st
  | n + 1, st, dist =>
    if 0 < dist then
      if st.fuel ≥ FUEL_RANGE_MILES then segGo n (refuelStep st) dist
      else if st.dsb ≥ REQ_BREAK_AFTER then segGo n (breakStep st) dist
      else if st.ds ≥ MAX_DRIVE_SHIFT ∨ st.on_duty ≥ MAX_ON_DUTY_SHIFT then
        segGo n (resetStep st) dist
      else
        let step_dist := min dist 60
        segGo n (driveChunk st step_dist) (dist - step_dist)
    else st

/-- Number of driving chunks needed for a distance. -/
def chunkCount (d : ℚ) : ℕ := (⌈d / 60⌉).toNat

/-- Sufficient iteration count for `simulate_segment` (proved in
`segGo_stable`): eight fuel units per chunk strictly dominate the up to
three injected events around each chunk. -/
def segFuel (d : ℚ) : ℕ := 8 * chunkCount d + 7

/-- `simulate_segment(distance)` acting on the full state. -/
def simulate_segment (st : St) (distance : ℚ) : St :=
  segGo (segFuel distance) st distance

/-- Initial state built at the top of `run_hos_simulation`. -/
def initSt : St :=
  { led := { logs := [], cur := { date := "Day 1", miles := 0, entries := [] }, day_minute := 0 }
    on_duty := 0, ds := 0, dsb := 0, fuel := 0 }

/-- `run_hos_simulation(dist_to_pickup, dist_to_drop, cycle_used_start)`:
the fixed trip script.  Note that, exactly as in the source, the
`cycle_used_start` argument is never read, the post-trip inspection does
not bump `on_duty_shift`, and the return value is just the list of day
logs (the current day appended last). -/
def run_hos_simulation (dist_to_pickup dist_to_drop cycle_used_start : ℚ) : List DayLog :=
  let st0 := initSt
  let st1 : St := { st0 with led := add_log_entry st0.led "ON" 30 "Pre-Trip Inspection",
                             on_duty := st0.on_duty + 30 }
  let st2 := simulate_segment st1 dist_to_pickup
  let st3 : St := { st2 with led := add_log_entry st2.led "ON" 60 "Loading at Pickup",
                             on_duty := st2.on_duty + 60 }
  let st4 := simulate_segment st3 dist_to_drop
  let st5 : St := { st4 with led := add_log_entry st4.led "ON" 60 "Unloading at Dropoff",
                             on_duty := st4.on_duty + 60 }
  let st6 : St := { st5 with led := add_log_entry st5.led "ON" 15 "Post-Trip Inspection" }
  let st7 : St :=
    if st6.led.day_minute < 1440 then
      { st6 with led := add_log_entry st6.led "OFF" ((1440 - st6.led.day_minute : ℤ) : ℚ) "Off Duty" }
    else st6
  st7.led.logs ++ [st7.led.cur]

/-! ## Derived observers -/

/-- All entries ever recorded, in order: the closed day logs' entries
followed by the current day's. -/
def allEntries (led : Ledger) : List Entry :=
  (led.logs.map DayLog.entries).flatten ++ led.cur.entries

/-- Total minutes attributed to DRIVING (`"D"`) entries in a list. -/
def dDur (es : List Entry) : ℤ :=
  (es.map (fun e => if e.status = "D" then e.duration else 0)).sum

/-- Total DRIVING minutes over a list of day logs. -/
def totalDriving (logs : List DayLog) : ℤ :=
  dDur ((logs.map DayLog.entries).flatten)

/-- Total miles over closed days plus the current day. -/
def milesTotal (led : Ledger) : ℚ :=
  (led.logs.map DayLog.miles).sum + led.cur.miles

/-- Sum of the `miles` fields of a list of day logs. -/
def milesOf (logs : List DayLog) : ℚ := (logs.map DayLog.miles).sum

/-! ## The day-boundary split loop: fuel stability and unfolding -/

theorem addGo_stable : ∀ (j k : ℕ) (led : Ledger) (s : String) (d : ℤ) (note : String),
    (d + led.day_minute).toNat < j → (d + led.day_minute).toNat < k →
    addGo j led s d note = addGo k led s d note := by
  intro j
  induction j using Nat.strong_induction_on with
  | _ j ih =>
    intro k led s d note hj hk
    match j, k with
    | j + 1, k + 1 =>
      simp only [addGo]
      by_cases h1 : d ≤ 0
      · simp [h1]
      · simp only [if_neg h1]
        by_cases h2 : led.day_minute + d > 1440
        · simp only [if_pos h2]
          apply ih
          · omega
          · simp only []
            omega
          · simp only []
            omega
        · simp only [if_neg h2]

/-- The ledger after `add_log_entry` closes the current day at the 1440
boundary: the partial entry is appended, the day is pushed onto
`generated_logs`, and a fresh day starts at minute 0. -/
def splitLedger (led : Ledger) (s : String) (note : String) : Ledger :=
  let closedDay : DayLog :=
    { led.cur with
      entries := led.cur.entries ++ [Entry.mk s led.day_minute 1440 (1440 - led.day_minute) note] }
  let newLogs := led.logs ++ [closedDay]
  { logs := newLogs
    cur := { date := "Day " ++ toString (newLogs.length + 1), miles := 0, entries := [] }
    day_minute := 0 }

theorem splitLedger_day_minute (led : Ledger) (s note : String) :
    (splitLedger led s note).day_minute = 0 := rfl

theorem splitLedger_allEntries (led : Ledger) (s note : String) :
    allEntries (splitLedger led s note) =
      allEntries led ++ [Entry.mk s led.day_minute 1440 (1440 - led.day_minute) note] := by
  simp [splitLedger, allEntries, List.append_assoc]

theorem splitLedger_milesTotal (led : Ledger) (s note : String) :
    milesTotal (splitLedger led s note) = milesTotal led := by
  simp [splitLedger, milesTotal]

/-- The exported `add_int` satisfies the recursive equation of the source's
`add_log_entry` (after `int()` truncation) with no fuel in sight. -/
theorem add_int_eq (led : Ledger) (s : String) (d : ℤ) (note : String) :
    add_int led s d note =
      if d ≤ 0 then led
      else if led.day_minute + d > 1440 then
        add_int (splitLedger led s note) s (led.day_minute + d - 1440) note
      else
        { led with
          cur := { led.cur with
                   entries := led.cur.entries ++
                     [Entry.mk s led.day_minute (led.day_minute + d) d note] }
          day_minute := led.day_minute + d } := by
  show addGo ((d + led.day_minute).toNat + 1) led s d note = _
  simp only [addGo, splitLedger]
  by_cases h1 : d ≤ 0
  · simp [h1]
  · simp only [if_neg h1]
    by_cases h2 : led.day_minute + d > 1440
    · simp only [if_pos h2]
      apply addGo_stable
      · simp only []
        omega
      · simp only []
        omega
    · simp only [if_neg h2]

/-- What one `add_log_entry` call (with already-truncated integer duration)
does to the observable ledger: it appends a block of entries, all carrying
the requested status and note, whose durations sum to the requested
duration (0 if the request was ≤ 0), and it never touches any miles
field. -/
theorem add_int_spec : ∀ (n : ℕ) (led : Ledger) (s : String) (d : ℤ) (note : String),
    (d + led.day_minute).toNat ≤ n →
    ∃ l : List Entry,
      allEntries (add_int led s d note) = allEntries led ++ l ∧
      (∀ e ∈ l, e.status = s ∧ e.note = note) ∧
      ((l.map Entry.duration).sum = if 0 < d then d else 0) ∧
      milesTotal (add_int led s d note) = milesTotal led := by
  have base : ∀ (led : Ledger) (s : String) (d : ℤ) (note : String), d ≤ 0 →
      ∃ l : List Entry,
        allEntries (add_int led s d note) = allEntries led ++ l ∧
        (∀ e ∈ l, e.status = s ∧ e.note = note) ∧
        ((l.map Entry.duration).sum = if 0 < d then d else 0) ∧
        milesTotal (add_int led s d note) = milesTotal led := by
    intro led s d note h1
    rw [add_int_eq, if_pos h1]
    refine ⟨[], by simp, by simp, ?_, rfl⟩
    rw [if_neg (by omega : ¬ (0:ℤ) < d)]
    simp
  have nosplit : ∀ (led : Ledger) (s : String) (d : ℤ) (note : String), ¬ d ≤ 0 →
      ¬ led.day_minute + d > 1440 →
      ∃ l : List Entry,
        allEntries (add_int led s d note) = allEntries led ++ l ∧
        (∀ e ∈ l, e.status = s ∧ e.note = note) ∧
        ((l.map Entry.duration).sum = if 0 < d then d else 0) ∧
        milesTotal (add_int led s d note) = milesTotal led := by
    intro led s d note h1 h2
    rw [add_int_eq, if_neg h1, if_neg h2]
    refine ⟨[Entry.mk s led.day_minute (led.day_minute + d) d note], ?_, ?_, ?_, ?_⟩
    · simp [allEntries, List.append_assoc]
    · intro e he
      rw [List.mem_singleton] at he
      subst he
      exact ⟨rfl, rfl⟩
    · rw [if_pos (by omega : (0:ℤ) < d)]
      simp
    · simp [milesTotal]
  intro n
  induction n with
  | zero =>
    intro led s d note h
    by_cases h1 : d ≤ 0
    · exact base led s d note h1
    · exact nosplit led s d note h1 (by omega)
  | succ n ih =>
    intro led s d note h
    by_cases h1 : d ≤ 0
    · exact base led s d note h1
    · by_cases h2 : led.day_minute + d > 1440
      · rw [add_int_eq, if_neg h1, if_pos h2]
        obtain ⟨l2, hA, hS, hD, hM⟩ :=
          ih (splitLedger led s note) s (led.day_minute + d - 1440) note
            (by rw [splitLedger_day_minute]; omega)
        rw [if_pos (by omega : (0:ℤ) < led.day_minute + d - 1440)] at hD
        refine ⟨Entry.mk s led.day_minute 1440 (1440 - led.day_minute) note :: l2, ?_, ?_, ?_, ?_⟩
        · rw [hA, splitLedger_allEntries]
          simp [List.append_assoc]
        · intro e he
          rcases List.mem_cons.mp he with h3 | h3
          · subst h3
            exact ⟨rfl, rfl⟩
          · exact hS e h3
        · rw [List.map_cons, List.sum_cons, hD, if_pos (by omega : (0:ℤ) < d)]
          dsimp only
          omega
        · rw [hM, splitLedger_milesTotal]
      · exact nosplit led s d note h1 h2

/-- When the requested entry fits inside the current day, exactly one entry
is appended and the cursor advances by its duration. -/
theorem add_int_nosplit (led : Ledger) (s : String) (d : ℤ) (note : String)
    (h0 : 0 < d) (h1 : led.day_minute + d ≤ 1440) :
    add_int led s d note =
      { led with
        cur := { led.cur with
                 entries := led.cur.entries ++
                   [Entry.mk s led.day_minute (led.day_minute + d) d note] }
        day_minute := led.day_minute + d } := by
  rw [add_int_eq, if_neg (by omega : ¬ d ≤ 0), if_neg (by omega : ¬ led.day_minute + d > 1440)]

/-! ## Timeline-entry invariants (contiguity, ordering, day bounds) -/

/-- `chainB a es` checks that the entries `es` are contiguous starting at
minute `a`: each entry starts where the previous one ended, its `duration`
field is `end − start`, and durations are nonnegative. -/
def chainB : ℤ → List Entry → Bool
  | _, [] => true
  | m, e :: rest =>
    decide (e.startMinute = m) && decide (e.endMinute = e.startMinute + e.duration) &&
      decide (0 ≤ e.duration) && chainB e.endMinute rest

/-- Final minute of a contiguous entry list that starts at `m`. -/
def tailEnd : ℤ → List Entry → ℤ
  | m, [] => m
  | _, e :: rest => tailEnd e.endMinute rest

/-- Day-log invariant: entries contiguous from minute 0 and ending by 1440. -/
def dayOK (l : DayLog) : Prop := chainB 0 l.entries = true ∧ tailEnd 0 l.entries ≤ 1440

/-- Ledger invariant maintained by the engine: all closed days satisfy
`dayOK`, the current day is contiguous and ends exactly at the cursor, and
the cursor lies in [0, 1440]. -/
def LedOK (led : Ledger) : Prop :=
  (∀ l ∈ led.logs, dayOK l) ∧
  chainB 0 led.cur.entries = true ∧
  tailEnd 0 led.cur.entries = led.day_minute ∧
  0 ≤ led.day_minute ∧ led.day_minute ≤ 1440

theorem chainB_append : ∀ (es : List Entry) (a : ℤ) (e : Entry),
    chainB a es = true → e.startMinute = tailEnd a es →
    e.endMinute = e.startMinute + e.duration → 0 ≤ e.duration →
    chainB a (es ++ [e]) = true ∧ tailEnd a (es ++ [e]) = e.endMinute := by
  intro es
  induction es with
  | nil =>
    intro a e _ hs he hd
    rw [tailEnd] at hs
    constructor
    · simp [chainB, hs, he, hd]
    · simp [tailEnd]
  | cons f rest ih =>
    intro a e hc hs he hd
    rw [chainB] at hc
    simp only [Bool.and_eq_true, decide_eq_true_eq] at hc
    obtain ⟨⟨⟨hf1, hf2⟩, hf3⟩, hf4⟩ := hc
    rw [tailEnd] at hs
    obtain ⟨ih1, ih2⟩ := ih f.endMinute e hf4 hs he hd
    constructor
    · rw [List.cons_append, chainB]
      simp only [Bool.and_eq_true, decide_eq_true_eq]
      exact ⟨⟨⟨hf1, hf2⟩, hf3⟩, ih1⟩
    · rw [List.cons_append, tailEnd]
      exact ih2

theorem splitLedger_ok (led : Ledger) (s note : String) (h : LedOK led) :
    LedOK (splitLedger led s note) := by
  obtain ⟨hlogs, hchain, htail, hm0, hm1⟩ := h
  have hpc := chainB_append led.cur.entries 0
    (Entry.mk s led.day_minute 1440 (1440 - led.day_minute) note) hchain
    (by dsimp only; omega) (by dsimp only; omega) (by dsimp only; omega)
  have hpc2 : tailEnd 0 (led.cur.entries ++
      [Entry.mk s led.day_minute 1440 (1440 - led.day_minute) note]) = 1440 := hpc.2
  refine ⟨?_, by simp [splitLedger, chainB], by simp [splitLedger, tailEnd],
          by simp [splitLedger], by simp [splitLedger]⟩
  intro l hl
  have hl' : l ∈ led.logs ∨
      l = { led.cur with
            entries := led.cur.entries ++
              [Entry.mk s led.day_minute 1440 (1440 - led.day_minute) note] } := by
    simpa [splitLedger] using hl
  rcases hl' with h | h
  · exact hlogs l h
  · subst h
    exact ⟨hpc.1, le_of_eq hpc2⟩

/-- `add_log_entry` preserves the ledger invariant, for any requested
integer duration. -/
theorem add_int_ok : ∀ (n : ℕ) (led : Ledger) (s : String) (d : ℤ) (note : String),
    (d + led.day_minute).toNat ≤ n → LedOK led → LedOK (add_int led s d note) := by
  have nosplit : ∀ (led : Ledger) (s : String) (d : ℤ) (note : String), ¬ d ≤ 0 →
      ¬ led.day_minute + d > 1440 → LedOK led → LedOK (add_int led s d note) := by
    intro led s d note h1 h2 hok
    obtain ⟨hlogs, hchain, htail, hm0, hm1⟩ := hok
    have hpc := chainB_append led.cur.entries 0
      (Entry.mk s led.day_minute (led.day_minute + d) d note) hchain
      (by dsimp only; omega) (by dsimp only) (by dsimp only; omega)
    have hpc2 : tailEnd 0 (led.cur.entries ++
        [Entry.mk s led.day_minute (led.day_minute + d) d note]) = led.day_minute + d := hpc.2
    rw [add_int_eq, if_neg h1, if_neg h2]
    dsimp only [LedOK]
    exact ⟨hlogs, hpc.1, hpc2, by omega, by omega⟩
  intro n
  induction n with
  | zero =>
    intro led s d note h hok
    by_cases h1 : d ≤ 0
    · rw [add_int_eq, if_pos h1]
      exact hok
    · have hm0 := hok.2.2.2.1
      exact nosplit led s d note h1 (by omega) hok
  | succ n ih =>
    intro led s d note h hok
    by_cases h1 : d ≤ 0
    · rw [add_int_eq, if_pos h1]
      exact hok
    · by_cases h2 : led.day_minute + d > 1440
      · rw [add_int_eq, if_neg h1, if_pos h2]
        exact ih (splitLedger led s note) s (led.day_minute + d - 1440) note
          (by rw [splitLedger_day_minute]; omega) (splitLedger_ok led s note hok)
      · exact nosplit led s d note h1 h2 hok

/-! ## The while loop of `simulate_segment`: branch equations and fuel stability -/

theorem segGo_zero (st : St) (d : ℚ) : segGo 0 st d = st := rfl

theorem segGo_stop (n : ℕ) (st : St) (d : ℚ) (h : ¬ 0 < d) : segGo (n + 1) st d = st := by
  simp only [segGo, if_neg h]

theorem segGo_refuel (n : ℕ) (st : St) (d : ℚ) (h : 0 < d)
    (h2 : st.fuel ≥ FUEL_RANGE_MILES) :
    segGo (n + 1) st d = segGo n (refuelStep st) d := by
  simp only [segGo, if_pos h, if_pos h2]

theorem segGo_break (n : ℕ) (st : St) (d : ℚ) (h : 0 < d)
    (h2 : ¬ st.fuel ≥ FUEL_RANGE_MILES) (h3 : st.dsb ≥ REQ_BREAK_AFTER) :
    segGo (n + 1) st d = segGo n (breakStep st) d := by
  simp only [segGo, if_pos h, if_neg h2, if_pos h3]

theorem segGo_reset (n : ℕ) (st : St) (d : ℚ) (h : 0 < d)
    (h2 : ¬ st.fuel ≥ FUEL_RANGE_MILES) (h3 : ¬ st.dsb ≥ REQ_BREAK_AFTER)
    (h4 : st.ds ≥ MAX_DRIVE_SHIFT ∨ st.on_duty ≥ MAX_ON_DUTY_SHIFT) :
    segGo (n + 1) st d = segGo n (resetStep st) d := by
  simp only [segGo, if_pos h, if_neg h2, if_neg h3, if_pos h4]

theorem segGo_drive (n : ℕ) (st : St) (d : ℚ) (h : 0 < d)
    (h2 : ¬ st.fuel ≥ FUEL_RANGE_MILES) (h3 : ¬ st.dsb ≥ REQ_BREAK_AFTER)
    (h4 : ¬ (st.ds ≥ MAX_DRIVE_SHIFT ∨ st.on_duty ≥ MAX_ON_DUTY_SHIFT)) :
    segGo (n + 1) st d = segGo n (driveChunk st (min d 60)) (d - min d 60) := by
  simp only [segGo, if_pos h, if_neg h2, if_neg h3, if_neg h4]

/-- 1 iff the refuel rule would fire. -/
def fFlag (st : St) : ℕ := if st.fuel ≥ FUEL_RANGE_MILES then 1 else 0
/-- 1 iff the mandated-break rule would fire. -/
def bFlag (st : St) : ℕ := if st.dsb ≥ REQ_BREAK_AFTER then 1 else 0
/-- 1 iff the sleeper-berth-reset rule would fire. -/
def rFlag (st : St) : ℕ := if st.ds ≥ MAX_DRIVE_SHIFT ∨ st.on_duty ≥ MAX_ON_DUTY_SHIFT then 1 else 0

/-- Termination measure for the while loop: every loop iteration strictly
decreases it (each event clears its own trigger and can raise at most
lower-weighted ones; a driving chunk consumes a full chunk's weight). -/
def meas (st : St) (d : ℚ) : ℕ := 8 * chunkCount d + 4 * fFlag st + 2 * bFlag st + rFlag st

theorem fFlag_le (st : St) : fFlag st ≤ 1 := by
  unfold fFlag
  split <;> omega

theorem bFlag_le (st : St) : bFlag st ≤ 1 := by
  unfold bFlag
  split <;> omega

theorem rFlag_le (st : St) : rFlag st ≤ 1 := by
  unfold rFlag
  split <;> omega

theorem chunkCount_nonpos (d : ℚ) (h : d ≤ 0) : chunkCount d = 0 := by
  unfold chunkCount
  have h1 : ⌈d / 60⌉ ≤ (0 : ℤ) := by
    rw [Int.ceil_le]
    push_cast
    rw [div_le_iff₀ (by norm_num : (0:ℚ) < 60)]
    linarith
  omega

theorem chunkCount_pos (d : ℚ) (h : 0 < d) : 1 ≤ chunkCount d := by
  unfold chunkCount
  have h1 : (0:ℤ) < ⌈d / 60⌉ := Int.ceil_pos.mpr (by positivity)
  omega

theorem chunkCount_step (d : ℚ) (h : 0 < d) : chunkCount (d - min d 60) + 1 ≤ chunkCount d := by
  rcases le_or_lt d 60 with hle | hgt
  · rw [min_eq_left hle, sub_self, chunkCount_nonpos 0 le_rfl]
    have := chunkCount_pos d h
    omega
  · rw [min_eq_right (le_of_lt hgt)]
    have he : (d - 60) / 60 = d / 60 - 1 := by ring
    unfold chunkCount
    rw [he, Int.ceil_sub_one]
    have h2 : (1:ℤ) < ⌈d / 60⌉ := by
      rw [Int.lt_ceil]
      push_cast
      rw [lt_div_iff₀ (by norm_num : (0:ℚ) < 60)]
      linarith
    omega

theorem fFlag_refuel (st : St) : fFlag (refuelStep st) = 0 := by
  unfold fFlag refuelStep
  dsimp only
  rw [if_neg (by norm_num [FUEL_RANGE_MILES] : ¬ (0:ℚ) ≥ FUEL_RANGE_MILES)]

theorem bFlag_break (st : St) : bFlag (breakStep st) = 0 := by
  unfold bFlag breakStep
  dsimp only
  rw [if_neg (by norm_num [REQ_BREAK_AFTER] : ¬ (0:ℚ) ≥ REQ_BREAK_AFTER)]

theorem bFlag_reset (st : St) : bFlag (resetStep st) = 0 := by
  unfold bFlag resetStep
  dsimp only
  rw [if_neg (by norm_num [REQ_BREAK_AFTER] : ¬ (0:ℚ) ≥ REQ_BREAK_AFTER)]

theorem rFlag_reset (st : St) : rFlag (resetStep st) = 0 := by
  unfold rFlag resetStep
  dsimp only
  rw [if_neg]
  rw [not_or]
  constructor
  · norm_num [MAX_DRIVE_SHIFT]
  · norm_num [MAX_ON_DUTY_SHIFT]

theorem meas_refuel_lt (st : St) (d : ℚ) (h2 : st.fuel ≥ FUEL_RANGE_MILES) :
    meas (refuelStep st) d < meas st d := by
  have e1 : fFlag st = 1 := by unfold fFlag; rw [if_pos h2]
  have e2 := fFlag_refuel st
  have e3 : bFlag (refuelStep st) = bFlag st := rfl
  have g1 := rFlag_le (refuelStep st)
  unfold meas
  rw [e1, e2, e3]
  omega

theorem meas_break_lt (st : St) (d : ℚ) (h2 : ¬ st.fuel ≥ FUEL_RANGE_MILES)
    (h3 : st.dsb ≥ REQ_BREAK_AFTER) :
    meas (breakStep st) d < meas st d := by
  have e1 : fFlag st = 0 := by unfold fFlag; rw [if_neg h2]
  have e2 : bFlag st = 1 := by unfold bFlag; rw [if_pos h3]
  have e3 : fFlag (breakStep st) = fFlag st := rfl
  have e4 := bFlag_break st
  have g1 := rFlag_le (breakStep st)
  unfold meas
  rw [e3, e1, e2, e4]
  omega

theorem meas_reset_lt (st : St) (d : ℚ) (h2 : ¬ st.fuel ≥ FUEL_RANGE_MILES)
    (h3 : ¬ st.dsb ≥ REQ_BREAK_AFTER)
    (h4 : st.ds ≥ MAX_DRIVE_SHIFT ∨ st.on_duty ≥ MAX_ON_DUTY_SHIFT) :
    meas (resetStep st) d < meas st d := by
  have e1 : fFlag st = 0 := by unfold fFlag; rw [if_neg h2]
  have e2 : bFlag st = 0 := by unfold bFlag; rw [if_neg h3]
  have e3 : rFlag st = 1 := by unfold rFlag; rw [if_pos h4]
  have e4 : fFlag (resetStep st) = fFlag st := rfl
  have e5 := bFlag_reset st
  have e6 := rFlag_reset st
  unfold meas
  rw [e4, e1, e2, e3, e5, e6]
  omega

theorem meas_drive_lt (st : St) (d : ℚ) (h : 0 < d)
    (h2 : ¬ st.fuel ≥ FUEL_RANGE_MILES) (h3 : ¬ st.dsb ≥ REQ_BREAK_AFTER)
    (h4 : ¬ (st.ds ≥ MAX_DRIVE_SHIFT ∨ st.on_duty ≥ MAX_ON_DUTY_SHIFT)) :
    meas (driveChunk st (min d 60)) (d - min d 60) < meas st d := by
  have e1 : fFlag st = 0 := by unfold fFlag; rw [if_neg h2]
  have e2 : bFlag st = 0 := by unfold bFlag; rw [if_neg h3]
  have e3 : rFlag st = 0 := by unfold rFlag; rw [if_neg h4]
  have hc := chunkCount_step d h
  have g1 := fFlag_le (driveChunk st (min d 60))
  have g2 := bFlag_le (driveChunk st (min d 60))
  have g3 := rFlag_le (driveChunk st (min d 60))
  unfold meas
  rw [e1, e2, e3]
  omega

/-- Every loop iteration strictly decreases the measure, so extra fuel
beyond the measure never changes the result. -/
theorem segGo_succ : ∀ (n : ℕ) (st : St) (d : ℚ), meas st d ≤ n →
    segGo n st d = segGo (n + 1) st d := by
  intro n
  induction n with
  | zero =>
    intro st d h
    have hc : chunkCount d = 0 := by unfold meas at h; omega
    have hd : ¬ 0 < d := by
      intro hd
      have := chunkCount_pos d hd
      omega
    rw [segGo_zero, segGo_stop 0 st d hd]
  | succ n ih =>
    intro st d h
    by_cases hd : 0 < d
    · by_cases h2 : st.fuel ≥ FUEL_RANGE_MILES
      · rw [segGo_refuel n st d hd h2, segGo_refuel (n+1) st d hd h2]
        exact ih (refuelStep st) d (by have := meas_refuel_lt st d h2; omega)
      · by_cases h3 : st.dsb ≥ REQ_BREAK_AFTER
        · rw [segGo_break n st d hd h2 h3, segGo_break (n+1) st d hd h2 h3]
          exact ih _ d (by have := meas_break_lt st d h2 h3; omega)
        · by_cases h4 : st.ds ≥ MAX_DRIVE_SHIFT ∨ st.on_duty ≥ MAX_ON_DUTY_SHIFT
          · rw [segGo_reset n st d hd h2 h3 h4, segGo_reset (n+1) st d hd h2 h3 h4]
            exact ih _ d (by have := meas_reset_lt st d h2 h3 h4; omega)
          · rw [segGo_drive n st d hd h2 h3 h4, segGo_drive (n+1) st d hd h2 h3 h4]
            exact ih _ _ (by have := meas_drive_lt st d hd h2 h3 h4; omega)
    · rw [segGo_stop n st d hd, segGo_stop (n+1) st d hd]

theorem segGo_add : ∀ (k n : ℕ) (st : St) (d : ℚ), meas st d ≤ n →
    segGo n st d = segGo (n + k) st d := by
  intro k
  induction k with
  | zero => intro n st d _; rfl
  | succ k ih =>
    intro n st d h
    rw [ih n st d h]
    exact segGo_succ (n + k) st d (by omega)

theorem segGo_eq_of_le (n : ℕ) (st : St) (d : ℚ) (h : meas st d ≤ n) :
    segGo n st d = segGo (meas st d) st d := by
  obtain ⟨k, rfl⟩ : ∃ k, n = meas st d + k := ⟨n - meas st d, by omega⟩
  exact (segGo_add k (meas st d) st d le_rfl).symm

theorem meas_le_segFuel (st : St) (d : ℚ) : meas st d ≤ segFuel d := by
  have g1 := fFlag_le st
  have g2 := bFlag_le st
  have g3 := rFlag_le st
  unfold meas segFuel
  omega

/-- Any fuel at least the measure computes `simulate_segment`. -/
theorem segGo_stable (n : ℕ) (st : St) (d : ℚ) (h : meas st d ≤ n) :
    segGo n st d = simulate_segment st d := by
  rw [segGo_eq_of_le n st d h]
  unfold simulate_segment
  rw [segGo_eq_of_le (segFuel d) st d (meas_le_segFuel st d)]

/-! ## Observables through single steps -/

theorem dDur_append (a b : List Entry) : dDur (a ++ b) = dDur a + dDur b := by
  simp [dDur]

theorem add_int_miles (led : Ledger) (s : String) (d : ℤ) (note : String) :
    milesTotal (add_int led s d note) = milesTotal led := by
  obtain ⟨l, _, _, _, hM⟩ := add_int_spec ((d + led.day_minute).toNat) led s d note le_rfl
  exact hM

theorem add_log_entry_miles (led : Ledger) (s : String) (q : ℚ) (note : String) :
    milesTotal (add_log_entry led s q note) = milesTotal led :=
  add_int_miles led s ⌊q⌋ note

theorem dDur_all_status (s : String) : ∀ (l : List Entry), (∀ e ∈ l, e.status = s) →
    dDur l = if s = "D" then (l.map Entry.duration).sum else 0 := by
  intro l
  induction l with
  | nil => simp [dDur]
  | cons e rest ih =>
    intro h
    have he := h e (List.mem_cons_self e rest)
    have hrest := ih (fun f hf => h f (List.mem_cons_of_mem e hf))
    rw [List.map_cons, List.sum_cons]
    unfold dDur at hrest ⊢
    rw [List.map_cons, List.sum_cons, hrest, he]
    by_cases hs : s = "D"
    · rw [if_pos hs, if_pos hs, if_pos hs]
    · rw [if_neg hs, if_neg hs, if_neg hs]
      omega

theorem add_int_dDur (led : Ledger) (s : String) (d : ℤ) (note : String) :
    dDur (allEntries (add_int led s d note)) =
      dDur (allEntries led) + (if s = "D" then (if 0 < d then d else 0) else 0) := by
  obtain ⟨l, hA, hS, hD, _⟩ := add_int_spec ((d + led.day_minute).toNat) led s d note le_rfl
  rw [hA, dDur_append, dDur_all_status s l (fun e he => (hS e he).1), hD]

theorem add_log_entry_dDur (led : Ledger) (s : String) (q : ℚ) (note : String) :
    dDur (allEntries (add_log_entry led s q note)) =
      dDur (allEntries led) + (if s = "D" then (if 0 < ⌊q⌋ then ⌊q⌋ else 0) else 0) :=
  add_int_dDur led s ⌊q⌋ note

theorem add_log_entry_ok (led : Ledger) (s : String) (q : ℚ) (note : String)
    (h : LedOK led) : LedOK (add_log_entry led s q note) :=
  add_int_ok ((⌊q⌋ + led.day_minute).toNat) led s ⌊q⌋ note le_rfl h

theorem refuelStep_miles (st : St) : milesTotal (refuelStep st).led = milesTotal st.led :=
  add_log_entry_miles st.led "ON" 30 "Refuel"

theorem breakStep_miles (st : St) : milesTotal (breakStep st).led = milesTotal st.led :=
  add_log_entry_miles st.led "OFF" 30 "Mandated 30m Break"

theorem resetStep_miles (st : St) : milesTotal (resetStep st).led = milesTotal st.led :=
  add_log_entry_miles st.led "SB" SLEEPER_SPLIT "10h Reset (Sleeper Berth)"

theorem driveChunk_miles (st : St) (step : ℚ) :
    milesTotal (driveChunk st step).led = milesTotal st.led + step := by
  have h := add_log_entry_miles st.led "D" (step / AVG_MPH * 60) "Driving"
  unfold driveChunk
  dsimp only
  unfold milesTotal at h ⊢
  dsimp only
  linarith

theorem refuelStep_dDur (st : St) :
    dDur (allEntries (refuelStep st).led) = dDur (allEntries st.led) := by
  have h := add_log_entry_dDur st.led "ON" 30 "Refuel"
  simpa using h

theorem breakStep_dDur (st : St) :
    dDur (allEntries (breakStep st).led) = dDur (allEntries st.led) := by
  have h := add_log_entry_dDur st.led "OFF" 30 "Mandated 30m Break"
  simpa using h

theorem resetStep_dDur (st : St) :
    dDur (allEntries (resetStep st).led) = dDur (allEntries st.led) := by
  have h := add_log_entry_dDur st.led "SB" SLEEPER_SPLIT "10h Reset (Sleeper Berth)"
  simpa using h

theorem driveChunk_dDur (st : St) (step : ℚ) :
    dDur (allEntries (driveChunk st step).led) =
      dDur (allEntries st.led) +
        (if 0 < ⌊step / AVG_MPH * 60⌋ then ⌊step / AVG_MPH * 60⌋ else 0) := by
  have h := add_log_entry_dDur st.led "D" (step / AVG_MPH * 60) "Driving"
  rw [if_pos rfl] at h
  unfold driveChunk
  dsimp only
  unfold allEntries at h ⊢
  dsimp only
  exact h

theorem refuelStep_ok (st : St) (h : LedOK st.led) : LedOK (refuelStep st).led :=
  add_log_entry_ok st.led "ON" 30 "Refuel" h

theorem breakStep_ok (st : St) (h : LedOK st.led) : LedOK (breakStep st).led :=
  add_log_entry_ok st.led "OFF" 30 "Mandated 30m Break" h

theorem resetStep_ok (st : St) (h : LedOK st.led) : LedOK (resetStep st).led :=
  add_log_entry_ok st.led "SB" SLEEPER_SPLIT "10h Reset (Sleeper Berth)" h

theorem driveChunk_ok (st : St) (step : ℚ) (h : LedOK st.led) :
    LedOK (driveChunk st step).led := by
  have h1 := add_log_entry_ok st.led "D" (step / AVG_MPH * 60) "Driving" h
  unfold driveChunk
  dsimp only
  obtain ⟨a, b, c, d1, e⟩ := h1
  exact ⟨a, b, c, d1, e⟩

/-! ## Observables through the whole segment loop -/

/-- A nonpositive distance makes the loop a no-op, for any fuel. -/
theorem segGo_nonpos : ∀ (n : ℕ) (st : St) (d : ℚ), d ≤ 0 → segGo n st d = st := by
  intro n
  cases n with
  | zero => intro st d _; rfl
  | succ n => intro st d h; exact segGo_stop n st d (by linarith)

theorem simulate_segment_nonpos (st : St) (d : ℚ) (h : d ≤ 0) :
    simulate_segment st d = st := segGo_nonpos (segFuel d) st d h

/-- The segment loop preserves the ledger invariant from any state. -/
theorem segGo_ok : ∀ (n : ℕ) (st : St) (d : ℚ), LedOK st.led → LedOK (segGo n st d).led := by
  intro n
  induction n with
  | zero => intro st d h; exact h
  | succ n ih =>
    intro st d h
    by_cases hd : 0 < d
    · by_cases h2 : st.fuel ≥ FUEL_RANGE_MILES
      · rw [segGo_refuel n st d hd h2]
        exact ih _ d (refuelStep_ok st h)
      · by_cases h3 : st.dsb ≥ REQ_BREAK_AFTER
        · rw [segGo_break n st d hd h2 h3]
          exact ih _ d (breakStep_ok st h)
        · by_cases h4 : st.ds ≥ MAX_DRIVE_SHIFT ∨ st.on_duty ≥ MAX_ON_DUTY_SHIFT
          · rw [segGo_reset n st d hd h2 h3 h4]
            exact ih _ d (resetStep_ok st h)
          · rw [segGo_drive n st d hd h2 h3 h4]
            exact ih _ _ (driveChunk_ok st (min d 60) h)
    · rw [segGo_stop n st d hd]
      exact h

/-- With sufficient fuel, the loop consumes the whole (nonnegative)
distance: total recorded miles grow by exactly the requested distance. -/
theorem segGo_miles : ∀ (n : ℕ) (st : St) (d : ℚ), meas st d ≤ n → 0 ≤ d →
    milesTotal (segGo n st d).led = milesTotal st.led + d := by
  intro n
  induction n with
  | zero =>
    intro st d h h0
    have hc : chunkCount d = 0 := by unfold meas at h; omega
    have hd : ¬ 0 < d := by
      intro hd
      have := chunkCount_pos d hd
      omega
    have : d = 0 := le_antisymm (not_lt.mp hd) h0
    rw [segGo_zero, this, add_zero]
  | succ n ih =>
    intro st d h h0
    by_cases hd : 0 < d
    · by_cases h2 : st.fuel ≥ FUEL_RANGE_MILES
      · rw [segGo_refuel n st d hd h2,
            ih _ d (by have := meas_refuel_lt st d h2; omega) h0, refuelStep_miles]
      · by_cases h3 : st.dsb ≥ REQ_BREAK_AFTER
        · rw [segGo_break n st d hd h2 h3,
              ih _ d (by have := meas_break_lt st d h2 h3; omega) h0, breakStep_miles]
        · by_cases h4 : st.ds ≥ MAX_DRIVE_SHIFT ∨ st.on_duty ≥ MAX_ON_DUTY_SHIFT
          · rw [segGo_reset n st d hd h2 h3 h4,
                ih _ d (by have := meas_reset_lt st d h2 h3 h4; omega) h0, resetStep_miles]
          · rw [segGo_drive n st d hd h2 h3 h4,
                ih _ _ (by have := meas_drive_lt st d hd h2 h3 h4; omega)
                  (by have := min_le_left d (60:ℚ); linarith),
                driveChunk_miles]
            ring
    · have : d = 0 := le_antisymm (not_lt.mp hd) h0
      rw [segGo_stop n st d hd, this, add_zero]

theorem simulate_segment_miles (st : St) (d : ℚ) (h : 0 ≤ d) :
    milesTotal (simulate_segment st d).led = milesTotal st.led + d :=
  segGo_miles (segFuel d) st d (meas_le_segFuel st d) h

theorem simulate_segment_ok (st : St) (d : ℚ) (h : LedOK st.led) :
    LedOK (simulate_segment st d).led := segGo_ok (segFuel d) st d h

theorem step_time_id (q : ℚ) : q / AVG_MPH * 60 = q := by
  unfold AVG_MPH
  exact div_mul_cancel₀ q (by norm_num)

theorem driveChunk_dDur_nat (st : St) (m : ℕ) (hm : 0 < m) :
    dDur (allEntries (driveChunk st ((m : ℕ) : ℚ)).led) = dDur (allEntries st.led) + m := by
  rw [driveChunk_dDur, step_time_id, Int.floor_natCast,
      if_pos (by exact_mod_cast hm : (0:ℤ) < (m:ℤ))]

/-- Driving an integer number of miles records exactly that many DRIVING
minutes (with sufficient fuel). -/
theorem segGo_dDur : ∀ (n : ℕ) (st : St) (k : ℕ), meas st (k:ℚ) ≤ n →
    dDur (allEntries (segGo n st (k:ℚ)).led) = dDur (allEntries st.led) + k := by
  intro n
  induction n with
  | zero =>
    intro st k h
    have hc : chunkCount (k:ℚ) = 0 := by unfold meas at h; omega
    have hk : k = 0 := by
      by_contra hk
      have : (0:ℚ) < (k:ℚ) := by exact_mod_cast Nat.pos_of_ne_zero hk
      have := chunkCount_pos (k:ℚ) this
      omega
    subst hk
    rw [segGo_zero]
    simp
  | succ n ih =>
    intro st k h
    by_cases hd : 0 < (k:ℚ)
    · by_cases h2 : st.fuel ≥ FUEL_RANGE_MILES
      · rw [segGo_refuel n st _ hd h2,
            ih _ k (by have := meas_refuel_lt st (k:ℚ) h2; omega), refuelStep_dDur]
      · by_cases h3 : st.dsb ≥ REQ_BREAK_AFTER
        · rw [segGo_break n st _ hd h2 h3,
              ih _ k (by have := meas_break_lt st (k:ℚ) h2 h3; omega), breakStep_dDur]
        · by_cases h4 : st.ds ≥ MAX_DRIVE_SHIFT ∨ st.on_duty ≥ MAX_ON_DUTY_SHIFT
          · rw [segGo_reset n st _ hd h2 h3 h4,
                ih _ k (by have := meas_reset_lt st (k:ℚ) h2 h3 h4; omega), resetStep_dDur]
          · have hkpos : 0 < k := by exact_mod_cast hd
            have hminpos : 0 < min k 60 := by omega
            have hmin : min ((k:ℕ):ℚ) 60 = ((min k 60 : ℕ) : ℚ) := by
              simp [Nat.cast_min]
            have hsub : ((k:ℕ):ℚ) - ((min k 60 : ℕ):ℚ) = ((k - min k 60 : ℕ) : ℚ) := by
              rw [← Nat.cast_sub (min_le_left k 60)]
            have hlt := meas_drive_lt st (k:ℚ) hd h2 h3 h4
            rw [segGo_drive n st _ hd h2 h3 h4]
            rw [hmin, hsub] at hlt ⊢
            rw [ih _ (k - min k 60) (by omega), driveChunk_dDur_nat st (min k 60) hminpos]
            push_cast
            have : min k 60 ≤ k := min_le_left k 60
            push_cast [Nat.cast_sub this]
            ring
    · have hk : k = 0 := by
        by_contra hk
        exact hd (by exact_mod_cast Nat.pos_of_ne_zero hk)
      subst hk
      rw [segGo_stop n st _ hd]
      simp

theorem simulate_segment_dDur (st : St) (k : ℕ) :
    dDur (allEntries (simulate_segment st (k:ℚ)).led) = dDur (allEntries st.led) + k :=
  segGo_dDur (segFuel (k:ℚ)) st k (meas_le_segFuel st (k:ℚ))

/-! ## The trip script -/

theorem milesOf_closed (led : Ledger) : milesOf (led.logs ++ [led.cur]) = milesTotal led := by
  simp [milesOf, milesTotal]

theorem totalDriving_closed (led : Ledger) :
    totalDriving (led.logs ++ [led.cur]) = dDur (allEntries led) := by
  simp [totalDriving, allEntries, dDur]

theorem initSt_ok : LedOK initSt.led := by
  refine ⟨by simp [initSt], rfl, rfl, le_refl 0, by norm_num [initSt]⟩

theorem add_on_dDur (led : Ledger) (q : ℚ) (note : String) :
    dDur (allEntries (add_log_entry led "ON" q note)) = dDur (allEntries led) := by
  rw [add_log_entry_dDur, if_neg (by decide : ¬ ("ON" : String) = "D"), add_zero]

theorem add_off_dDur (led : Ledger) (q : ℚ) (note : String) :
    dDur (allEntries (add_log_entry led "OFF" q note)) = dDur (allEntries led) := by
  rw [add_log_entry_dDur, if_neg (by decide : ¬ ("OFF" : String) = "D"), add_zero]

/-- Total miles attributed across all returned day logs is exactly
`leg1 + leg2`, for arbitrary nonnegative (rational) leg distances. -/
theorem run_hos_milesOf (l1 l2 c : ℚ) (h1 : 0 ≤ l1) (h2 : 0 ≤ l2) :
    milesOf (run_hos_simulation l1 l2 c) = l1 + l2 := by
  unfold run_hos_simulation
  dsimp only
  rw [milesOf_closed]
  have hinit : milesTotal initSt.led = 0 := by
    norm_num [initSt, milesTotal]
  split
  · rw [add_log_entry_miles, add_log_entry_miles, add_log_entry_miles,
        simulate_segment_miles _ l2 h2, add_log_entry_miles,
        simulate_segment_miles _ l1 h1, add_log_entry_miles, hinit]
    ring
  · rw [add_log_entry_miles, add_log_entry_miles,
        simulate_segment_miles _ l2 h2, add_log_entry_miles,
        simulate_segment_miles _ l1 h1, add_log_entry_miles, hinit]
    ring

/-- For integer leg distances the total DRIVING minutes across all day
logs is exactly `leg1 + leg2` (at 1 minute per mile). -/
theorem run_hos_driving (a b : ℕ) (c : ℚ) :
    totalDriving (run_hos_simulation (a:ℚ) (b:ℚ) c) = a + b := by
  unfold run_hos_simulation
  dsimp only
  rw [totalDriving_closed]
  have hinit : dDur (allEntries initSt.led) = 0 := by
    norm_num [initSt, allEntries, dDur]
  split
  · rw [add_off_dDur, add_on_dDur, add_on_dDur,
        simulate_segment_dDur _ b, add_on_dDur,
        simulate_segment_dDur _ a, add_on_dDur, hinit]
    ring
  · rw [add_on_dDur, add_on_dDur,
        simulate_segment_dDur _ b, add_on_dDur,
        simulate_segment_dDur _ a, add_on_dDur, hinit]
    ring

/-- Every day log returned by a run satisfies the timeline invariants:
entries are contiguous from minute 0 (hence ordered, with
`duration = end − start ≥ 0`) and the day ends by minute 1440. -/
theorem run_hos_ok (l1 l2 c : ℚ) :
    ∀ log ∈ run_hos_simulation l1 l2 c,
      chainB 0 log.entries = true ∧ tailEnd 0 log.entries ≤ 1440 := by
  suffices h : ∃ led : Ledger, run_hos_simulation l1 l2 c = led.logs ++ [led.cur] ∧ LedOK led by
    obtain ⟨led, he, hok⟩ := h
    intro log hlog
    rw [he] at hlog
    rcases List.mem_append.mp hlog with h | h
    · exact ⟨(hok.1 log h).1, (hok.1 log h).2⟩
    · rw [List.mem_singleton] at h
      subst h
      refine ⟨hok.2.1, ?_⟩
      rw [hok.2.2.1]
      exact hok.2.2.2.2
  unfold run_hos_simulation
  dsimp only
  refine ⟨_, rfl, ?_⟩
  split
  · apply add_log_entry_ok
    apply add_log_entry_ok
    apply add_log_entry_ok
    apply simulate_segment_ok
    apply add_log_entry_ok
    apply simulate_segment_ok
    apply add_log_entry_ok
    exact initSt_ok
  · apply add_log_entry_ok
    apply add_log_entry_ok
    apply simulate_segment_ok
    apply add_log_entry_ok
    apply simulate_segment_ok
    apply add_log_entry_ok
    exact initSt_ok

/-! ## Exact shape of injected events, and append-only behaviour -/

theorem add_log_entry_append (led : Ledger) (s : String) (q : ℚ) (note : String) :
    ∃ l, allEntries (add_log_entry led s q note) = allEntries led ++ l := by
  obtain ⟨l, hA, _, _, _⟩ :=
    add_int_spec ((⌊q⌋ + led.day_minute).toNat) led s ⌊q⌋ note le_rfl
  exact ⟨l, hA⟩

theorem driveChunk_append (st : St) (step : ℚ) :
    ∃ l, allEntries (driveChunk st step).led = allEntries st.led ++ l := by
  obtain ⟨l, hA⟩ := add_log_entry_append st.led "D" (step / AVG_MPH * 60) "Driving"
  refine ⟨l, ?_⟩
  unfold driveChunk
  dsimp only
  unfold allEntries at hA ⊢
  dsimp only
  exact hA

/-- The segment loop only ever appends entries. -/
theorem segGo_append : ∀ (n : ℕ) (st : St) (d : ℚ),
    ∃ l, allEntries (segGo n st d).led = allEntries st.led ++ l := by
  intro n
  induction n with
  | zero => intro st d; exact ⟨[], by simp [segGo_zero]⟩
  | succ n ih =>
    intro st d
    by_cases hd : 0 < d
    · by_cases h2 : st.fuel ≥ FUEL_RANGE_MILES
      · obtain ⟨l1, hl1⟩ := add_log_entry_append st.led "ON" 30 "Refuel"
        obtain ⟨l2, hl2⟩ := ih (refuelStep st) d
        exact ⟨l1 ++ l2, by
          rw [segGo_refuel n st d hd h2, hl2]
          show allEntries (add_log_entry st.led "ON" 30 "Refuel") ++ l2 = _
          rw [hl1, List.append_assoc]⟩
      · by_cases h3 : st.dsb ≥ REQ_BREAK_AFTER
        · obtain ⟨l1, hl1⟩ := add_log_entry_append st.led "OFF" 30 "Mandated 30m Break"
          obtain ⟨l2, hl2⟩ := ih (breakStep st) d
          exact ⟨l1 ++ l2, by
            rw [segGo_break n st d hd h2 h3, hl2]
            show allEntries (add_log_entry st.led "OFF" 30 "Mandated 30m Break") ++ l2 = _
            rw [hl1, List.append_assoc]⟩
        · by_cases h4 : st.ds ≥ MAX_DRIVE_SHIFT ∨ st.on_duty ≥ MAX_ON_DUTY_SHIFT
          · obtain ⟨l1, hl1⟩ :=
              add_log_entry_append st.led "SB" SLEEPER_SPLIT "10h Reset (Sleeper Berth)"
            obtain ⟨l2, hl2⟩ := ih (resetStep st) d
            exact ⟨l1 ++ l2, by
              rw [segGo_reset n st d hd h2 h3 h4, hl2]
              show allEntries (add_log_entry st.led "SB" SLEEPER_SPLIT
                "10h Reset (Sleeper Berth)") ++ l2 = _
              rw [hl1, List.append_assoc]⟩
          · obtain ⟨l1, hl1⟩ := driveChunk_append st (min d 60)
            obtain ⟨l2, hl2⟩ := ih (driveChunk st (min d 60)) (d - min d 60)
            exact ⟨l1 ++ l2, by
              rw [segGo_drive n st d hd h2 h3 h4, hl2, hl1, List.append_assoc]⟩
    · exact ⟨[], by rw [segGo_stop n st d hd]; simp⟩

theorem refuelStep_spec (st : St) (h0 : 0 ≤ st.led.day_minute)
    (h1 : st.led.day_minute + 30 ≤ 1440) :
    allEntries (refuelStep st).led = allEntries st.led ++
      [Entry.mk "ON" st.led.day_minute (st.led.day_minute + 30) 30 "Refuel"] ∧
    (refuelStep st).led.day_minute = st.led.day_minute + 30 := by
  have hf : (⌊(30:ℚ)⌋ : ℤ) = 30 := by norm_num
  unfold refuelStep add_log_entry
  dsimp only
  rw [hf, add_int_nosplit st.led "ON" 30 "Refuel" (by norm_num) (by omega)]
  constructor
  · simp [allEntries, List.append_assoc]
  · rfl

theorem breakStep_spec (st : St) (h0 : 0 ≤ st.led.day_minute)
    (h1 : st.led.day_minute + 30 ≤ 1440) :
    allEntries (breakStep st).led = allEntries st.led ++
      [Entry.mk "OFF" st.led.day_minute (st.led.day_minute + 30) 30 "Mandated 30m Break"] ∧
    (breakStep st).led.day_minute = st.led.day_minute + 30 := by
  have hf : (⌊(30:ℚ)⌋ : ℤ) = 30 := by norm_num
  unfold breakStep add_log_entry
  dsimp only
  rw [hf, add_int_nosplit st.led "OFF" 30 "Mandated 30m Break" (by norm_num) (by omega)]
  constructor
  · simp [allEntries, List.append_assoc]
  · rfl

theorem resetStep_spec (st : St) (h0 : 0 ≤ st.led.day_minute)
    (h1 : st.led.day_minute + 600 ≤ 1440) :
    allEntries (resetStep st).led = allEntries st.led ++
      [Entry.mk "SB" st.led.day_minute (st.led.day_minute + 600) 600
        "10h Reset (Sleeper Berth)"] ∧
    (resetStep st).led.day_minute = st.led.day_minute + 600 := by
  have hf : (⌊SLEEPER_SPLIT⌋ : ℤ) = 600 := by norm_num [SLEEPER_SPLIT]
  unfold resetStep add_log_entry
  dsimp only
  rw [hf, add_int_nosplit st.led "SB" 600 "10h Reset (Sleeper Berth)"
      (by norm_num) (by omega)]
  constructor
  · simp [allEntries, List.append_assoc]
  · rfl

/-! ## Ghost observer: counters at the instant each driving chunk is recorded -/

/-- Mirrors the loop of `simulate_segment` exactly, recording the tuple
(drive_since_break, drive_shift, on_duty_shift, fuel_tank) at the moment
each driving chunk is recorded. -/
def driveObs : ℕ → St → ℚ → List (ℚ × ℚ × ℚ × ℚ)
  | 0, _, _ => []
  | n + 1, st, dist =>
    if 0 < dist then
      if st.fuel ≥ FUEL_RANGE_MILES then driveObs n (refuelStep st) dist
      else if st.dsb ≥ REQ_BREAK_AFTER then driveObs n (breakStep st) dist
      else if st.ds ≥ MAX_DRIVE_SHIFT ∨ st.on_duty ≥ MAX_ON_DUTY_SHIFT then
        driveObs n (resetStep st) dist
      else
        (st.dsb, st.ds, st.on_duty, st.fuel) ::
          driveObs n (driveChunk st (min dist 60)) (dist - min dist 60)
    else []

/-! ## Claims -/

set_option maxRecDepth 20000

/-- C1 counterexample: for the nonnegative leg distances (1/2, 0) the sum
of DRIVING-entry durations is 0, not the claimed leg1 + leg2 = 1/2 minutes:
`int()` truncation drops the sub-minute driving chunk from the timeline. -/
theorem claim1_counterexample :
    totalDriving (run_hos_simulation (1/2) 0 0) = 0 ∧
    ((totalDriving (run_hos_simulation (1/2) 0 0) : ℚ) ≠ 1/2 + 0) := by
  with_unfolding_all decide

/-- C1 (amended): for all nonnegative INTEGER leg distances, the total
minutes across all DRIVING entries of all returned day logs equals exactly
leg1 + leg2 (1 minute per mile); the 60-mile chunking discards nothing.
(For fractional distances the `int()` truncation in `add_log_entry` drops
the sub-minute remainder, see the counterexample.) -/
theorem claim1_driving_total (a b : ℕ) (c : ℚ) :
    totalDriving (run_hos_simulation (a:ℚ) (b:ℚ) c) = a + b :=
  run_hos_driving a b c

/-- C2 counterexample: two runs that differ only in `cycle_used_start`
return identical results, so the returned value cannot contain a
`finalCycleHoursUsed` component equal to cycleUsedStart plus the accrued
duty time (these would differ by 5 hours between the two runs). -/
theorem claim2_counterexample :
    run_hos_simulation 0 0 0 = run_hos_simulation 0 0 5 ∧ (0:ℚ) ≠ 5 :=
  ⟨rfl, by norm_num⟩

/-- C2 (amended): the trip computation returns only the ordered day logs;
the `cycle_used_start` argument is ignored (no finalCycleHoursUsed is
computed), and the miles fields of the returned day logs sum to exactly
leg1 + leg2 (totalMiles is reconstructed separately by the HTTP layer). -/
theorem claim2_trip_result (l1 l2 c c' : ℚ) (h1 : 0 ≤ l1) (h2 : 0 ≤ l2) :
    run_hos_simulation l1 l2 c = run_hos_simulation l1 l2 c' ∧
    milesOf (run_hos_simulation l1 l2 c) = l1 + l2 :=
  ⟨rfl, run_hos_milesOf l1 l2 c h1 h2⟩

theorem claim2_witness :
    run_hos_simulation 5 7 3 = run_hos_simulation 5 7 11 ∧
    milesOf (run_hos_simulation 5 7 3) = 5 + 7 :=
  claim2_trip_result 5 7 3 11 (by norm_num) (by norm_num)

/-- C3 counterexample: on the trip (900, 0, 0) day 1 ends with a
zero-duration DRIVING entry `[1440, 1440]`: when the cursor sits exactly on
the 1440 boundary, the split appends an entry with `fit = 0`. -/
theorem claim3_counterexample :
    ((run_hos_simulation 900 0 0).any
      (fun dl => dl.entries.any (fun e => decide (e.duration = 0)))) = true := by
  with_unfolding_all decide

/-- C3 (amended): in every returned day log the entries are contiguous
from minute 0 (each entry's end is the next entry's start and
`duration = end − start`), durations are ≥ 0 — zero-duration entries do
occur when a split lands exactly on the 1440 boundary — and the last entry
ends at or before minute 1440. -/
theorem claim3_invariants (l1 l2 c : ℚ) (log : DayLog)
    (h : log ∈ run_hos_simulation l1 l2 c) :
    chainB 0 log.entries = true ∧ tailEnd 0 log.entries ≤ 1440 :=
  run_hos_ok l1 l2 c log h

/-- Day log produced by the zero-distance trip, used as a witness input. -/
def day1zero : DayLog :=
  ⟨"Day 1", 0,
    [⟨"ON", 0, 30, 30, "Pre-Trip Inspection"⟩,
     ⟨"ON", 30, 90, 60, "Loading at Pickup"⟩,
     ⟨"ON", 90, 150, 60, "Unloading at Dropoff"⟩,
     ⟨"ON", 150, 165, 15, "Post-Trip Inspection"⟩,
     ⟨"OFF", 165, 1440, 1275, "Off Duty"⟩]⟩

theorem claim3_witness :
    chainB 0 day1zero.entries = true ∧ tailEnd 0 day1zero.entries ≤ 1440 :=
  claim3_invariants 0 0 0 day1zero (by with_unfolding_all decide)

/-- C4: when all three thresholds are crossed at once before a driving
chunk, the loop emits the refuel event first, then the mandated break,
then the sleeper-berth reset, in immediately consecutive entries —
re-evaluation restarts from the refuel rule after every injection. -/
theorem claim4_priority (n : ℕ) (st : St) (d : ℚ)
    (hf : st.fuel ≥ FUEL_RANGE_MILES) (hb : st.dsb ≥ REQ_BREAK_AFTER)
    (hr : st.ds ≥ MAX_DRIVE_SHIFT ∨ st.on_duty ≥ MAX_ON_DUTY_SHIFT)
    (hd : 0 < d) (h0 : 0 ≤ st.led.day_minute) (h1 : st.led.day_minute + 660 ≤ 1440) :
    ∃ rest, allEntries (segGo (n + 3) st d).led = allEntries st.led ++
      Entry.mk "ON" st.led.day_minute (st.led.day_minute + 30) 30 "Refuel" ::
      Entry.mk "OFF" (st.led.day_minute + 30) (st.led.day_minute + 60) 30
        "Mandated 30m Break" ::
      Entry.mk "SB" (st.led.day_minute + 60) (st.led.day_minute + 660) 600
        "10h Reset (Sleeper Berth)" :: rest := by
  have r1 := refuelStep_spec st h0 (by omega)
  have hf1 : ¬ (refuelStep st).fuel ≥ FUEL_RANGE_MILES := by
    show ¬ (0:ℚ) ≥ FUEL_RANGE_MILES
    norm_num [FUEL_RANGE_MILES]
  have hb1 : (refuelStep st).dsb ≥ REQ_BREAK_AFTER := hb
  have r2 := breakStep_spec (refuelStep st) (by rw [r1.2]; omega) (by rw [r1.2]; omega)
  rw [r1.2] at r2
  have hf2 : ¬ (breakStep (refuelStep st)).fuel ≥ FUEL_RANGE_MILES := hf1
  have hb2 : ¬ (breakStep (refuelStep st)).dsb ≥ REQ_BREAK_AFTER := by
    show ¬ (0:ℚ) ≥ REQ_BREAK_AFTER
    norm_num [REQ_BREAK_AFTER]
  have hr2 : (breakStep (refuelStep st)).ds ≥ MAX_DRIVE_SHIFT ∨
      (breakStep (refuelStep st)).on_duty ≥ MAX_ON_DUTY_SHIFT := by
    rcases hr with h | h
    · exact Or.inl h
    · refine Or.inr ?_
      show st.on_duty + 30 + 30 ≥ MAX_ON_DUTY_SHIFT
      linarith
  have r3 := resetStep_spec (breakStep (refuelStep st)) (by rw [r2.2]; omega)
    (by rw [r2.2]; omega)
  rw [r2.2] at r3
  obtain ⟨rest, hrest⟩ := segGo_append n (resetStep (breakStep (refuelStep st))) d
  refine ⟨rest, ?_⟩
  rw [segGo_refuel (n+2) st d hd hf, segGo_break (n+1) _ d hd hf1 hb1,
      segGo_reset n _ d hd hf2 hb2 hr2, hrest, r3.1, r2.1, r1.1]
  have e1 : st.led.day_minute + 30 + 30 = st.led.day_minute + 60 := by ring
  have e2 : st.led.day_minute + 60 + 600 = st.led.day_minute + 660 := by ring
  rw [e1, e2]
  simp [List.append_assoc]

/-- State with all four counters exactly at their thresholds. -/
def c4St : St := ⟨initSt.led, 840, 660, 480, 1000⟩

theorem claim4_witness :
    ∃ rest, allEntries (segGo 3 c4St 1).led = allEntries c4St.led ++
      Entry.mk "ON" 0 30 30 "Refuel" ::
      Entry.mk "OFF" 30 60 30 "Mandated 30m Break" ::
      Entry.mk "SB" 60 660 600 "10h Reset (Sleeper Berth)" :: rest :=
  claim4_priority 0 c4St 1 (by with_unfolding_all decide)
    (by with_unfolding_all decide)
    (Or.inl (by with_unfolding_all decide))
    (by with_unfolding_all decide) (by with_unfolding_all decide)
    (by with_unfolding_all decide)

/-- Concrete state whose `drive_since_break` counter sits at the break
threshold. -/
def c5St : St := ⟨initSt.led, 100, 200, 480, 300⟩

/-- C5 counterexample: when the mandated-break rule fires, the break is
NOT neutral on `on_duty_shift` — the code adds 30 minutes to it
(`on_duty_shift += 30` right after recording the OFF entry). -/
theorem claim5_counterexample :
    c5St.dsb ≥ REQ_BREAK_AFTER ∧ (breakStep c5St).on_duty ≠ c5St.on_duty := by
  with_unfolding_all decide

/-- C5 (amended): when the mandated-break rule fires (drive_since_break ≥
480), the engine records one 30-minute OFF entry (when it fits the day),
zeroes drive_since_break, leaves drive_shift and fuel_tank unchanged, and
ADDS 30 minutes to on_duty_shift. -/
theorem claim5_break_effect (st : St) (hfire : st.dsb ≥ REQ_BREAK_AFTER)
    (h0 : 0 ≤ st.led.day_minute) (h1 : st.led.day_minute + 30 ≤ 1440) :
    (breakStep st).ds = st.ds ∧ (breakStep st).fuel = st.fuel ∧
    (breakStep st).dsb = 0 ∧ (breakStep st).on_duty = st.on_duty + 30 ∧
    allEntries (breakStep st).led = allEntries st.led ++
      [Entry.mk "OFF" st.led.day_minute (st.led.day_minute + 30) 30 "Mandated 30m Break"] :=
  ⟨rfl, rfl, rfl, rfl, (breakStep_spec st h0 h1).1⟩

theorem claim5_witness :
    (breakStep c5St).ds = c5St.ds ∧ (breakStep c5St).fuel = c5St.fuel ∧
    (breakStep c5St).dsb = 0 ∧ (breakStep c5St).on_duty = c5St.on_duty + 30 ∧
    allEntries (breakStep c5St).led = allEntries c5St.led ++
      [Entry.mk "OFF" 0 30 30 "Mandated 30m Break"] :=
  claim5_break_effect c5St (by with_unfolding_all decide)
    (by with_unfolding_all decide) (by with_unfolding_all decide)

/-- C6: at the instant any driving chunk is recorded — from any starting
state and distance — all four counters are strictly below their trigger
thresholds, because the rule evaluator runs (and fires) before each chunk. -/
theorem claim6_guards (n : ℕ) (st : St) (d : ℚ) (x : ℚ × ℚ × ℚ × ℚ)
    (hx : x ∈ driveObs n st d) :
    x.1 < REQ_BREAK_AFTER ∧ x.2.1 < MAX_DRIVE_SHIFT ∧
    x.2.2.1 < MAX_ON_DUTY_SHIFT ∧ x.2.2.2 < FUEL_RANGE_MILES := by
  induction n generalizing st d x with
  | zero => simp [driveObs] at hx
  | succ n ih =>
    simp only [driveObs] at hx
    by_cases hd : 0 < d
    · rw [if_pos hd] at hx
      by_cases h2 : st.fuel ≥ FUEL_RANGE_MILES
      · rw [if_pos h2] at hx
        exact ih _ _ _ hx
      · rw [if_neg h2] at hx
        by_cases h3 : st.dsb ≥ REQ_BREAK_AFTER
        · rw [if_pos h3] at hx
          exact ih _ _ _ hx
        · rw [if_neg h3] at hx
          by_cases h4 : st.ds ≥ MAX_DRIVE_SHIFT ∨ st.on_duty ≥ MAX_ON_DUTY_SHIFT
          · rw [if_pos h4] at hx
            exact ih _ _ _ hx
          · rw [if_neg h4] at hx
            rcases List.mem_cons.mp hx with h | h
            · subst h
              rw [not_or] at h4
              exact ⟨not_le.mp h3, not_le.mp h4.1, not_le.mp h4.2, not_le.mp h2⟩
            · exact ih _ _ _ h
    · rw [if_neg hd] at hx
      simp at hx

theorem claim6_witness :
    ((0:ℚ), (0:ℚ), (0:ℚ), (0:ℚ)).1 < REQ_BREAK_AFTER ∧
    ((0:ℚ), (0:ℚ), (0:ℚ), (0:ℚ)).2.1 < MAX_DRIVE_SHIFT ∧
    ((0:ℚ), (0:ℚ), (0:ℚ), (0:ℚ)).2.2.1 < MAX_ON_DUTY_SHIFT ∧
    ((0:ℚ), (0:ℚ), (0:ℚ), (0:ℚ)).2.2.2 < FUEL_RANGE_MILES :=
  claim6_guards 1 initSt 5 ((0:ℚ), (0:ℚ), (0:ℚ), (0:ℚ))
    (by with_unfolding_all decide)

/-- C7 counterexample: with a negative leg distance and a negative
cycle-used value the computation is NOT rejected: the engine runs normally
and returns a one-day log (identical to the zero-distance trip), because
no input validation exists in the code. -/
theorem claim7_counterexample :
    run_hos_simulation (-5) 0 (-1) = run_hos_simulation 0 0 0 ∧
    (run_hos_simulation (-5) 0 (-1)).length = 1 := by
  with_unfolding_all decide

/-- C7 (amended): negative inputs are not rejected — there is no
InvalidInput check anywhere.  The simulation runs normally; a nonpositive
leg distance just contributes no driving, so the result coincides with the
zero-distance trip for any cycle value. -/
theorem claim7_no_validation (l1 l2 c c' : ℚ) (h1 : l1 ≤ 0) (h2 : l2 ≤ 0) :
    run_hos_simulation l1 l2 c = run_hos_simulation 0 0 c' := by
  unfold run_hos_simulation
  dsimp only
  rw [simulate_segment_nonpos _ l1 h1, simulate_segment_nonpos _ l2 h2,
      simulate_segment_nonpos _ 0 le_rfl, simulate_segment_nonpos _ 0 le_rfl]

theorem claim7_witness :
    run_hos_simulation (-5) (-3) (-1) = run_hos_simulation 0 0 7 :=
  claim7_no_validation (-5) (-3) (-1) 7 (by norm_num) (by norm_num)

/-- C8: the drive loop terminates within an explicit iteration bound:
running the loop with any fuel at least `segFuel d = 8 * ⌈d/60⌉ + 7`
iterations yields the same final state as `simulate_segment` — i.e. the
loop has converged; each injected event zeroes its own trigger and each
chunk consumes up to 60 miles, so at most `segFuel d` iterations occur. -/
theorem claim8_termination (st : St) (d : ℚ) (n : ℕ) (h : segFuel d ≤ n) :
    segGo n st d = simulate_segment st d :=
  segGo_stable n st d (le_trans (meas_le_segFuel st d) h)

theorem claim8_witness : segGo 1000 initSt 60 = simulate_segment initSt 60 :=
  claim8_termination initSt 60 1000 (by with_unfolding_all decide)

/-- C9: recorded durations are the integer truncation of the request: a
request that truncates to ≤ 0 records nothing at all; one that fits the
day records exactly one entry of the truncated duration; a driving chunk
under 1 mile therefore records no timeline entry while its miles still go
into the day's miles and the fuel counter; consequently the (1/2, 0, 0)
trip reports a day with 1/2 mile driven and 0 DRIVING minutes. -/
theorem claim9_truncation :
    (∀ (led : Ledger) (s : String) (q : ℚ) (note : String), ⌊q⌋ ≤ 0 →
        add_log_entry led s q note = led) ∧
    (∀ (led : Ledger) (s : String) (q : ℚ) (note : String),
        0 < ⌊q⌋ → led.day_minute + ⌊q⌋ ≤ 1440 →
        allEntries (add_log_entry led s q note) = allEntries led ++
          [Entry.mk s led.day_minute (led.day_minute + ⌊q⌋) ⌊q⌋ note]) ∧
    (∀ (st : St) (step : ℚ), 0 < step → step < 1 →
        allEntries (driveChunk st step).led = allEntries st.led ∧
        (driveChunk st step).led.cur.miles = st.led.cur.miles + step ∧
        (driveChunk st step).fuel = st.fuel + step) ∧
    ((run_hos_simulation (1/2) 0 0).map DayLog.miles = [1/2] ∧
      totalDriving (run_hos_simulation (1/2) 0 0) = 0) := by
  refine ⟨?_, ?_, ?_, ?_⟩
  · intro led s q note h
    unfold add_log_entry
    rw [add_int_eq, if_pos h]
  · intro led s q note h0 h1
    unfold add_log_entry
    rw [add_int_nosplit led s ⌊q⌋ note h0 h1]
    simp [allEntries, List.append_assoc]
  · intro st step hpos hlt
    have hfl : ⌊step / AVG_MPH * 60⌋ = 0 := by
      rw [step_time_id]
      exact Int.floor_eq_zero_iff.mpr ⟨le_of_lt hpos, hlt⟩
    have hdrop : add_log_entry st.led "D" (step / AVG_MPH * 60) "Driving" = st.led := by
      unfold add_log_entry
      rw [hfl, add_int_eq, if_pos le_rfl]
    unfold driveChunk
    dsimp only
    rw [hdrop]
    exact ⟨rfl, rfl, rfl⟩
  · constructor
    · with_unfolding_all decide
    · with_unfolding_all decide

theorem claim9_witness :
    add_log_entry initSt.led "ON" (1/2) "HalfMinute" = initSt.led :=
  claim9_truncation.1 initSt.led "ON" (1/2) "HalfMinute" (by with_unfolding_all decide)

/-- C10: the returned day logs are independent of the `cycle_used_start`
argument — the source never reads it — so any two invocations with the
same leg distances produce identical day logs regardless of the cycle
values. -/
theorem claim10_noninterference (l1 l2 c c' : ℚ) :
    run_hos_simulation l1 l2 c = run_hos_simulation l1 l2 c' := rfl
